import Mathlib

/-!
Verification of the schema-descriptor and row-image hash-index core of a
replication applier (`sql/rpl_utility.h`).

The header defines two components:
* `table_def` — a decoded table-map column descriptor with inline member
  functions `type`, `field_metadata`, `maybe_null` (embedded below directly
  from the header's code);
* `Hash_slave_rows` — a hash index over raw row images.  Its member bodies
  (`put`/`get`/`next`/`del`/`make_hash_key`) live in a `.cc` translation unit
  that is not part of the provided sources, so those operations are modelled
  from the specification and the header's own documentation comments.

Machine integers are modelled as `Nat`; the wire metadata words are 16-bit
quantities, which the theorems track with explicit `< 65536` bounds where
the high byte matters.
-/

/-! ## MySQL wire type codes (values fixed by the wire protocol) -/

def MYSQL_TYPE_TINY : Nat := 1
def MYSQL_TYPE_SHORT : Nat := 2
def MYSQL_TYPE_LONG : Nat := 3
def MYSQL_TYPE_LONGLONG : Nat := 8
def MYSQL_TYPE_INT24 : Nat := 9
def MYSQL_TYPE_DATE : Nat := 10
def MYSQL_TYPE_NEWDATE : Nat := 14
def MYSQL_TYPE_VARCHAR : Nat := 15
def MYSQL_TYPE_ENUM : Nat := 247
def MYSQL_TYPE_SET : Nat := 248
def MYSQL_TYPE_BLOB : Nat := 252
def MYSQL_TYPE_STRING : Nat := 254

/-! ## `table_def`: the decoded column-schema descriptor

Fields mirror the private members of `class table_def`:
`m_size` (number of columns), `m_type` (one type byte per column),
`m_field_metadata_size` and `m_field_metadata` (per-column 16-bit metadata
words), `m_null_bits` (the null-capability bitmap, one bit per column in
column order). -/

structure table_def where
  m_size : Nat
  m_type : List Nat
  m_field_metadata_size : Nat
  m_field_metadata : List Nat
  m_null_bits : List Nat
deriving Repr, DecidableEq

/-- Embedding of `table_def::type(ulong index)`:
normalizes `MYSQL_TYPE_STRING` into ENUM/SET when the metadata high byte
carries one of those sub-type codes, rewrites the legacy `MYSQL_TYPE_DATE`
code into `MYSQL_TYPE_NEWDATE` unconditionally, and returns every other
code unchanged.  The array reads `m_type[index]` and
`m_field_metadata[index]` become `getD` with default 0. -/
def table_def.type (td : table_def) (index : Nat) : Nat :=
  let source_type := td.m_type.getD index 0
  let source_metadata := td.m_field_metadata.getD index 0
  if source_type = MYSQL_TYPE_STRING then
    let real_type := source_metadata >>> 8
    if real_type = MYSQL_TYPE_ENUM ∨ real_type = MYSQL_TYPE_SET then
      real_type
    else
      source_type
  else if source_type = MYSQL_TYPE_DATE then
    MYSQL_TYPE_NEWDATE
  else
    source_type

/-- Embedding of `table_def::field_metadata(uint index)`:
returns the stored metadata word when the descriptor carries a metadata
array (`m_field_metadata_size` nonzero), and 0 otherwise. -/
def table_def.field_metadata (td : table_def) (index : Nat) : Nat :=
  if td.m_field_metadata_size ≠ 0 then
    td.m_field_metadata.getD index 0
  else
    0

/-- Embedding of `table_def::maybe_null(uint index)`:
`(m_null_bits[index / 8] & (1 << (index % 8))) == (1 << (index % 8))`. -/
def table_def.maybe_null (td : table_def) (index : Nat) : Bool :=
  decide ((td.m_null_bits.getD (index / 8) 0) &&& (1 <<< (index % 8))
            = (1 <<< (index % 8)))

/-- `DBUG_ASSERT(index < m_size)`-guarded variant of `table_def.type`:
`none` models the assertion firing, `some` the normal return. -/
def table_def.type_checked (td : table_def) (index : Nat) : Option Nat :=
  if index < td.m_size then some (td.type index) else none

/-- `DBUG_ASSERT`-guarded variant of `table_def.field_metadata`. -/
def table_def.field_metadata_checked (td : table_def) (index : Nat) : Option Nat :=
  if index < td.m_size then some (td.field_metadata index) else none

/-- `DBUG_ASSERT`-guarded variant of `table_def.maybe_null`. -/
def table_def.maybe_null_checked (td : table_def) (index : Nat) : Option Bool :=
  if index < td.m_size then some (td.maybe_null index) else none

/-- Well-formedness of a constructed descriptor: the constructor allocates
`m_type` and `m_field_metadata` with `m_size` slots and the null bitmap
with `⌈m_size / 8⌉` bytes. -/
def table_def.WF (td : table_def) : Prop :=
  td.m_type.length = td.m_size ∧
  td.m_field_metadata.length = td.m_size ∧
  td.m_null_bits.length = (td.m_size + 7) / 8

/-! ## `Hash_slave_rows`: the row-image hash index

The member bodies are in the (absent) `.cc` file; everything below is
modelled from the specification and the header's documentation comments.
Entries are identified by `Nat` ids (pointer identities); row buffers are
per-column byte lists and column masks are `List Bool`. -/

/-- Modelled from the spec: `Hash_slave_rows::make_hash_key` (body in the
absent `rpl_utility.cc`) derives a key deterministically from the row
buffer's current contents restricted to the columns set in the mask,
hashing the selected columns' bytes. -/
def make_hash_key (buf : List (List Nat)) (mask : List Bool) : Nat :=
  (List.zip mask buf).foldl
    (fun h p =>
      if p.1 then
        p.2.foldl (fun a b => (a * 33 + b) % 4294967296) h
      else h)
    5381

/-- One result of `Hash_slave_rows::next`: a next entry in the chain, a
clean end-of-chain, or the failure return (`true` in the C API) that
reports misuse and leaves the caller's pointer unchanged. -/
inductive NextResult where
  | found : Nat → NextResult
  | notFound : NextResult
  | failure : NextResult
deriving Repr, DecidableEq

/-- Modelled from the spec: the hash-index state.  `m_hash` maps each
computed key to its collision chain (entry ids in chain order); `consumed`
records the entries already advanced past by a `next` call since the last
fresh `get`, enforcing the single-pass traversal contract. -/
structure Hash_slave_rows where
  m_hash : List (Nat × List Nat)
  consumed : List Nat
deriving Repr, DecidableEq

/-- Modelled from the spec: a freshly `init()`-ed, empty hash index. -/
def Hash_slave_rows.init : Hash_slave_rows := ⟨[], []⟩

/-- Append an entry to the chain of key `k`, creating the chain if absent
(duplicate keys chain in insertion order). -/
def putChains : List (Nat × List Nat) → Nat → Nat → List (Nat × List Nat)
  | [], k, e => [(k, [e])]
  | (k', es) :: rest, k, e =>
    if k' = k then (k', es ++ [e]) :: rest
    else (k', es) :: putChains rest k e

/-- The chain stored under key `k` (empty if no chain). -/
def chainOf : List (Nat × List Nat) → Nat → List Nat
  | [], _ => []
  | (k', es) :: rest, k => if k' = k then es else chainOf rest k

/-- The chain containing entry `e`, if any. -/
def chainContaining : List (Nat × List Nat) → Nat → Option (List Nat)
  | [], _ => none
  | (_, es) :: rest, e => if e ∈ es then some es else chainContaining rest e

/-- The entry following `e` in a chain, if `e` is not the last. -/
def nextInChain : List Nat → Nat → Option Nat
  | [], _ => none
  | [_], _ => none
  | a :: b :: rest, e => if a = e then some b else nextInChain (b :: rest) e

/-- Remove entry `e` from the first chain containing it. -/
def delFromChains : List (Nat × List Nat) → Nat → List (Nat × List Nat)
  | [], _ => []
  | (k, es) :: rest, e =>
    if e ∈ es then (k, es.erase e) :: rest
    else (k, es) :: delFromChains rest e

/-- Modelled from the spec: `Hash_slave_rows::put` computes the key from
the buffer's current contents and the mask, and chains the entry onto any
existing entries with the same key. -/
def Hash_slave_rows.put (s : Hash_slave_rows) (buf : List (List Nat))
    (mask : List Bool) (entry : Nat) : Hash_slave_rows :=
  { s with m_hash := putChains s.m_hash (make_hash_key buf mask) entry }

/-- Modelled from the spec: `Hash_slave_rows::get` computes the same key as
`put` from the buffer's current contents and returns the first entry of
that key's chain, or `none`; a successful fresh lookup resets the
traversal-consumption record (it does not remove or mark the entry). -/
def Hash_slave_rows.get (s : Hash_slave_rows) (buf : List (List Nat))
    (mask : List Bool) : Option Nat × Hash_slave_rows :=
  match chainOf s.m_hash (make_hash_key buf mask) with
  | [] => (none, s)
  | e :: _ => (some e, { s with consumed := [] })

/-- Modelled from the spec: `Hash_slave_rows::next`.  An entry already
advanced by a previous `next` (without an intervening fresh `get`), or an
entry no longer in the table, yields the failure return with no state
mutation; otherwise the entry is marked consumed and its successor in the
chain (or a clean not-found at chain end) is returned. -/
def Hash_slave_rows.next (s : Hash_slave_rows) (e : Nat) :
    NextResult × Hash_slave_rows :=
  if e ∈ s.consumed then (NextResult.failure, s)
  else
    match chainContaining s.m_hash e with
    | none => (NextResult.failure, s)
    | some es =>
      match nextInChain es e with
      | some e2 => (NextResult.found e2, { s with consumed := e :: s.consumed })
      | none => (NextResult.notFound, { s with consumed := e :: s.consumed })

/-- Modelled from the spec: `Hash_slave_rows::del` removes the entry from
its chain and releases it. -/
def Hash_slave_rows.del (s : Hash_slave_rows) (e : Nat) : Hash_slave_rows :=
  { s with m_hash := delFromChains s.m_hash e }

/-- Modelled from the spec: `Hash_slave_rows::size` is the live entry
count, i.e. the total length of all chains. -/
def Hash_slave_rows.size (s : Hash_slave_rows) : Nat :=
  (s.m_hash.map (fun p => p.2.length)).sum

/-- `del` applied to each entry of a list in turn. -/
def delAll (s : Hash_slave_rows) (es : List Nat) : Hash_slave_rows :=
  es.foldl Hash_slave_rows.del s

/-! ## `table_def::compatible_with`: schema compatibility

The body lives in the absent `.cc` file; the model below follows the
header's documentation comment (one column sequence must be a prefix of
the other, paired columns must be identical or convertible under the
configured conversion policy) and the specification's policy taxonomy. -/

/-- Modelled from the spec: the conversion-policy configuration
(`SLAVE_TYPE_CONVERSIONS`): `strict` allows only identical types,
`widenOnly` only lossless widenings, `permissive` any defined coercion. -/
inductive ConvPolicy where
  | strict : ConvPolicy
  | widenOnly : ConvPolicy
  | permissive : ConvPolicy
deriving Repr, DecidableEq

/-- Width rank of the integer type family, used by the widen-only policy. -/
def intRank (t : Nat) : Option Nat :=
  if t = MYSQL_TYPE_TINY then some 1
  else if t = MYSQL_TYPE_SHORT then some 2
  else if t = MYSQL_TYPE_INT24 then some 3
  else if t = MYSQL_TYPE_LONG then some 4
  else if t = MYSQL_TYPE_LONGLONG then some 5
  else none

/-- Modelled from the spec: whether a non-identical master type `a` may be
converted to slave type `b` under the policy.  `widenOnly` accepts only a
strictly wider integer target; `permissive` accepts any coercion. -/
def can_convert (pol : ConvPolicy) (a b : Nat) : Bool :=
  match pol with
  | ConvPolicy.strict => false
  | ConvPolicy.widenOnly =>
    match intRank a, intRank b with
    | some ra, some rb => ra < rb
    | _, _ => false
  | ConvPolicy.permissive => true

/-- Modelled from the spec: the outcome of a compatibility check: fully
compatible with no conversion, compatible via a per-paired-column
conversion spec (`none` = no conversion for that column), or incompatible
with the offending column index reported. -/
inductive CompatResult where
  | Compatible : CompatResult
  | CompatibleWithConversion : List (Option (Nat × Nat)) → CompatResult
  | Incompatible : Nat → CompatResult
deriving Repr, DecidableEq

/-- Walk the paired columns (the shared prefix of the two sequences,
either side may have trailing extras): each pair must be identical
(`none` entry) or convertible (`some` entry); the first disallowed pair
short-circuits with its index. -/
def pair_conversions (pol : ConvPolicy) :
    List Nat → List Nat → Nat → Except Nat (List (Option (Nat × Nat)))
  | [], _, _ => Except.ok []
  | _ :: _, [], _ => Except.ok []
  | a :: as, b :: bs, i =>
    if a = b then
      match pair_conversions pol as bs (i + 1) with
      | Except.ok rest => Except.ok (none :: rest)
      | Except.error j => Except.error j
    else if can_convert pol a b then
      match pair_conversions pol as bs (i + 1) with
      | Except.ok rest => Except.ok (some (a, b) :: rest)
      | Except.error j => Except.error j
    else
      Except.error i

/-- Modelled from the spec: `table_def::compatible_with` over normalized
column-type sequences; Compatible when every paired column is identical,
CompatibleWithConversion when some paired column needs a conversion, and
Incompatible at the first disallowed pairing. -/
def compatible_with (pol : ConvPolicy) (decoded live : List Nat) : CompatResult :=
  match pair_conversions pol decoded live 0 with
  | Except.error i => CompatResult.Incompatible i
  | Except.ok conv =>
    if conv.all (fun o => o = none) then CompatResult.Compatible
    else CompatResult.CompatibleWithConversion conv

/-- The key-relevant column values of a row buffer: per column, `some` of
its bytes when the mask selects it, `none` otherwise.  Two buffers with
equal selections under the same mask carry identical key-relevant column
values. -/
def selectedCols (buf : List (List Nat)) (mask : List Bool) :
    List (Option (List Nat)) :=
  (List.zip mask buf).map (fun p => if p.1 then some p.2 else none)

/-! ## Helper lemmas -/

/-- The C bit test `(n & (1 << k)) == (1 << k)` agrees with `Nat.testBit`. -/
theorem and_shiftLeft_eq_iff_testBit (n k : Nat) :
    decide (n &&& (1 <<< k) = 1 <<< k) = n.testBit k := by
  rw [Nat.shiftLeft_eq, one_mul, Nat.and_two_pow]
  cases h : n.testBit k
  · simp [(Nat.two_pow_pos k).ne]
  · simp

/-! ## Claim theorems -/

/-- C1: for an in-range column whose stored code is the generic
fixed-string code, `type` returns ENUM when the metadata high byte is the
ENUM marker, SET when it is the SET marker, and plain fixed-string for any
other metadata value; a stored legacy date code is unconditionally
normalized to the newer date encoding; every other stored code is returned
unchanged. -/
theorem table_def_type_normalizes (td : table_def) (i : Nat)
    (hi : i < td.m_size) (hmd : td.m_field_metadata.getD i 0 < 65536) :
    (td.m_type.getD i 0 = MYSQL_TYPE_STRING →
      ((td.m_field_metadata.getD i 0) >>> 8 = MYSQL_TYPE_ENUM →
          td.type i = MYSQL_TYPE_ENUM) ∧
      ((td.m_field_metadata.getD i 0) >>> 8 = MYSQL_TYPE_SET →
          td.type i = MYSQL_TYPE_SET) ∧
      ((td.m_field_metadata.getD i 0) >>> 8 ≠ MYSQL_TYPE_ENUM →
        (td.m_field_metadata.getD i 0) >>> 8 ≠ MYSQL_TYPE_SET →
          td.type i = MYSQL_TYPE_STRING)) ∧
    (td.m_type.getD i 0 = MYSQL_TYPE_DATE → td.type i = MYSQL_TYPE_NEWDATE) ∧
    (td.m_type.getD i 0 ≠ MYSQL_TYPE_STRING →
      td.m_type.getD i 0 ≠ MYSQL_TYPE_DATE →
      td.type i = td.m_type.getD i 0) := by
  refine ⟨fun hs => ⟨fun he => ?_, fun he => ?_, fun he1 he2 => ?_⟩,
    fun hd => ?_, fun hns hnd => ?_⟩
  · simp only [table_def.type]
    rw [hs, he]
    simp
  · simp only [table_def.type]
    rw [hs, he]
    simp [MYSQL_TYPE_ENUM, MYSQL_TYPE_SET]
  · simp only [table_def.type]
    rw [hs]
    simp only [List.getD_eq_getElem?_getD] at he1 he2
    simp [he1, he2]
  · simp only [table_def.type]
    rw [hd]
    simp [MYSQL_TYPE_DATE, MYSQL_TYPE_STRING]
  · simp only [table_def.type]
    simp only [List.getD_eq_getElem?_getD] at hns hnd
    simp [hns, hnd]

/-- C1 witness: a two-column descriptor whose first column is a generic
string with ENUM-marked metadata. -/
theorem table_def_type_normalizes_witness :
    (⟨2, [MYSQL_TYPE_STRING, MYSQL_TYPE_DATE], 2, [63232, 0], [2]⟩ :
        table_def).type 0 = MYSQL_TYPE_ENUM :=
  ((table_def_type_normalizes
      ⟨2, [MYSQL_TYPE_STRING, MYSQL_TYPE_DATE], 2, [63232, 0], [2]⟩ 0
      (by decide) (by decide)).1 (by decide)).1 (by decide)

/-- C2: for an in-range column, `maybe_null i` is true exactly when bit
`i` of the null-capability bitmap (bit `i % 8` of byte `i / 8`, column
order) is set. -/
theorem table_def_maybe_null_iff_bit (td : table_def) (i : Nat)
    (hi : i < td.m_size) :
    td.maybe_null i = (td.m_null_bits.getD (i / 8) 0).testBit (i % 8) := by
  unfold table_def.maybe_null
  exact and_shiftLeft_eq_iff_testBit _ _

/-- C2 witness: byte `0b00000010` sets exactly bit 1. -/
theorem table_def_maybe_null_iff_bit_witness :
    (⟨2, [MYSQL_TYPE_LONG, MYSQL_TYPE_LONG], 0, [], [2]⟩ :
        table_def).maybe_null 1 = Nat.testBit 2 1 :=
  table_def_maybe_null_iff_bit
    ⟨2, [MYSQL_TYPE_LONG, MYSQL_TYPE_LONG], 0, [], [2]⟩ 1 (by decide)

/-- C3: for an in-range column, `field_metadata` returns 0 when the
descriptor was constructed with no metadata array (size marker zero), and
the stored metadata word for that column when an array is present. -/
theorem table_def_field_metadata_cases (td : table_def) (i : Nat)
    (hi : i < td.m_size) :
    (td.m_field_metadata_size = 0 → td.field_metadata i = 0) ∧
    (td.m_field_metadata_size ≠ 0 →
      td.field_metadata i = td.m_field_metadata.getD i 0) := by
  constructor <;> intro h <;> simp [table_def.field_metadata, h]

/-- C3 witness: a one-column descriptor with a metadata array present. -/
theorem table_def_field_metadata_cases_witness :
    (⟨1, [MYSQL_TYPE_VARCHAR], 1, [384], [0]⟩ : table_def).field_metadata 0
      = List.getD [384] 0 0 :=
  (table_def_field_metadata_cases
    ⟨1, [MYSQL_TYPE_VARCHAR], 1, [384], [0]⟩ 0 (by decide)).2 (by decide)

/-- C8: on a well-formed descriptor, each of `type`, `field_metadata`,
`maybe_null` hits its index assertion (modelled as `none`) exactly on
out-of-range indices; in range the assertion never fires and every array
access the member functions perform is within the allocated bounds. -/
theorem table_def_index_assert_guard (td : table_def) (hWF : td.WF) (i : Nat) :
    (td.m_size ≤ i →
      td.type_checked i = none ∧ td.field_metadata_checked i = none ∧
      td.maybe_null_checked i = none) ∧
    (i < td.m_size →
      td.type_checked i = some (td.type i) ∧
      td.field_metadata_checked i = some (td.field_metadata i) ∧
      td.maybe_null_checked i = some (td.maybe_null i) ∧
      i < td.m_type.length ∧ i < td.m_field_metadata.length ∧
      i / 8 < td.m_null_bits.length) := by
  obtain ⟨h1, h2, h3⟩ := hWF
  constructor
  · intro h
    simp [table_def.type_checked, table_def.field_metadata_checked,
      table_def.maybe_null_checked, Nat.not_lt.mpr h]
  · intro h
    refine ⟨?_, ?_, ?_, ?_, ?_, ?_⟩ <;>
      simp [table_def.type_checked, table_def.field_metadata_checked,
        table_def.maybe_null_checked, h, h1, h2, h3] <;> omega

/-- C8 witness: a well-formed two-column descriptor at index 1. -/
theorem table_def_index_assert_guard_witness :
    (⟨2, [MYSQL_TYPE_LONG, MYSQL_TYPE_DATE], 2, [0, 0], [3]⟩ :
        table_def).type_checked 1 = some ((⟨2, [MYSQL_TYPE_LONG, MYSQL_TYPE_DATE],
          2, [0, 0], [3]⟩ : table_def).type 1) :=
  ((table_def_index_assert_guard
      ⟨2, [MYSQL_TYPE_LONG, MYSQL_TYPE_DATE], 2, [0, 0], [3]⟩
      ⟨by decide, by decide, by decide⟩ 1).2 (by decide)).1

/-- C10: the no-metadata guard is asymmetric: there is a descriptor state
with metadata-size marker zero and a nonzero stored metadata word for which
`type` reports ENUM (reading the stored word unconditionally) while
`field_metadata` reports 0. -/
theorem type_field_metadata_asymmetry :
    ∃ td : table_def, ∃ i : Nat, i < td.m_size ∧
      td.m_field_metadata_size = 0 ∧ td.m_field_metadata.getD i 0 ≠ 0 ∧
      td.type i = MYSQL_TYPE_ENUM ∧ td.field_metadata i = 0 := by
  refine ⟨⟨1, [MYSQL_TYPE_STRING], 0, [63232], [0]⟩, 0,
    by decide, rfl, by decide, by decide, by decide⟩


/-- The key-derivation fold depends only on the mask-selected columns. -/
theorem foldkey_congr (l1 : List (Bool × List Nat)) :
    ∀ l2 : List (Bool × List Nat),
      l1.map (fun p => if p.1 then some p.2 else none) =
        l2.map (fun p => if p.1 then some p.2 else none) →
      ∀ acc : Nat,
        l1.foldl (fun h p =>
          if p.1 then p.2.foldl (fun a b => (a * 33 + b) % 4294967296) h else h)
          acc =
        l2.foldl (fun h p =>
          if p.1 then p.2.foldl (fun a b => (a * 33 + b) % 4294967296) h else h)
          acc := by
  induction l1 with
  | nil =>
    intro l2 h acc
    cases l2 with
    | nil => rfl
    | cons q l2' => exact absurd h (by simp)
  | cons p l1' ih =>
    intro l2 h acc
    cases l2 with
    | nil => exact absurd h (by simp)
    | cons q l2' =>
      simp only [List.map_cons, List.cons.injEq] at h
      obtain ⟨hhead, htail⟩ := h
      cases hp : p.1 with
      | false =>
        cases hq : q.1 with
        | false =>
          rw [List.foldl_cons, List.foldl_cons, hp, hq]
          simp only [Bool.false_eq_true, if_false]
          exact ih l2' htail acc
        | true =>
          rw [hp, hq] at hhead
          simp at hhead
      | true =>
        cases hq : q.1 with
        | false =>
          rw [hp, hq] at hhead
          simp at hhead
        | true =>
          rw [hp, hq] at hhead
          simp only [if_true] at hhead
          injection hhead with hv
          rw [List.foldl_cons, List.foldl_cons, hp, hq]
          simp only [if_true]
          rw [hv]
          exact ih l2' htail _

/-- Buffers carrying identical key-relevant column values under the same
mask derive the same hash key. -/
theorem make_hash_key_congr (buf2 buf1 : List (List Nat)) (mask : List Bool)
    (h : selectedCols buf2 mask = selectedCols buf1 mask) :
    make_hash_key buf2 mask = make_hash_key buf1 mask := by
  unfold selectedCols at h
  unfold make_hash_key
  exact foldkey_congr (List.zip mask buf2) (List.zip mask buf1) h 5381

/-- An entry put under key `k` is a member of the chain stored at `k`. -/
theorem mem_chainOf_putChains (ch : List (Nat × List Nat)) (k e : Nat) :
    e ∈ chainOf (putChains ch k e) k := by
  induction ch with
  | nil => simp [putChains, chainOf]
  | cons p rest ih =>
    obtain ⟨k', es⟩ := p
    by_cases h : k' = k
    · subst h
      simp [putChains, chainOf]
    · simp [putChains, chainOf, h, ih]

/-- C4: calling `next` a second time on an entry already advanced by a
previous `next` (no intervening fresh `get`) returns the failure
indication and leaves both the entry pointer and the index state
unchanged. -/
theorem hash_next_double_fails (s : Hash_slave_rows) (e : Nat)
    (hr : (s.next e).1 ≠ NextResult.failure) :
    ((s.next e).2).next e = (NextResult.failure, (s.next e).2) := by
  by_cases hc : e ∈ s.consumed
  · exact absurd (by simp [Hash_slave_rows.next, hc]) hr
  · rcases hcc : chainContaining s.m_hash e with _ | es
    · exact absurd (by simp [Hash_slave_rows.next, hc, hcc]) hr
    · rcases hn : nextInChain es e with _ | e2 <;>
        simp [Hash_slave_rows.next, hc, hcc, hn]

/-- C4 witness: the second `next` on entry 1 of chain `[1, 2]` fails with
no state change. -/
theorem hash_next_double_fails_witness :
    ((Hash_slave_rows.next ⟨[(5, [1, 2])], []⟩ 1).2).next 1 =
      (NextResult.failure, (Hash_slave_rows.next ⟨[(5, [1, 2])], []⟩ 1).2) :=
  hash_next_double_fails ⟨[(5, [1, 2])], []⟩ 1 (by decide)

/-- C9: key derivation is deterministic — two calls with identical
row-buffer contents and identical mask compute the same key — so an entry
stored by `put` is in the chain examined by a subsequent `get` with the
same buffer contents and mask, and that `get` finds an entry. -/
theorem make_hash_key_deterministic (s : Hash_slave_rows)
    (buf buf' : List (List Nat)) (mask mask' : List Bool) (e : Nat)
    (hb : buf' = buf) (hm : mask' = mask) :
    make_hash_key buf' mask' = make_hash_key buf mask ∧
    e ∈ chainOf ((s.put buf mask e).m_hash) (make_hash_key buf' mask') ∧
    (((s.put buf mask e).get buf' mask').1).isSome = true := by
  subst hb
  subst hm
  refine ⟨rfl, mem_chainOf_putChains s.m_hash (make_hash_key buf' mask') e, ?_⟩
  have hmem := mem_chainOf_putChains s.m_hash (make_hash_key buf' mask') e
  rcases hch : chainOf (putChains s.m_hash (make_hash_key buf' mask') e)
      (make_hash_key buf' mask') with _ | ⟨a, rest⟩
  · rw [hch] at hmem
    simp at hmem
  · simp [Hash_slave_rows.get, Hash_slave_rows.put, hch]

/-- C9 witness: put then get of entry 3 under a one-column mask. -/
theorem make_hash_key_deterministic_witness :
    make_hash_key [[7]] [true] = make_hash_key [[7]] [true] ∧
    3 ∈ chainOf ((Hash_slave_rows.init.put [[7]] [true] 3).m_hash)
        (make_hash_key [[7]] [true]) ∧
    (((Hash_slave_rows.init.put [[7]] [true] 3).get [[7]] [true]).1).isSome
      = true :=
  make_hash_key_deterministic Hash_slave_rows.init [[7]] [[7]] [true] [true] 3
    rfl rfl

/-- C5: after inserting three distinct entries via `put` with identical
key-relevant column values under the same column mask, one `get` followed
by two `next` calls visits exactly those three entries once each, in chain
order, and a third `next` reports not-found. -/
theorem hash_roundtrip_three (a b c : Nat) (hab : a ≠ b) (hac : a ≠ c)
    (hbc : b ≠ c) (buf1 buf2 buf3 : List (List Nat)) (mask : List Bool)
    (h2 : selectedCols buf2 mask = selectedCols buf1 mask)
    (h3 : selectedCols buf3 mask = selectedCols buf1 mask) :
    ∃ s4 s5 s6 s7 : Hash_slave_rows,
      (((Hash_slave_rows.init.put buf1 mask a).put buf2 mask b).put
          buf3 mask c).get buf1 mask = (some a, s4) ∧
      s4.next a = (NextResult.found b, s5) ∧
      s5.next b = (NextResult.found c, s6) ∧
      s6.next c = (NextResult.notFound, s7) := by
  have e2 := make_hash_key_congr buf2 buf1 mask h2
  have e3 := make_hash_key_congr buf3 buf1 mask h3
  refine ⟨⟨[(make_hash_key buf1 mask, [a, b, c])], []⟩,
    ⟨[(make_hash_key buf1 mask, [a, b, c])], [a]⟩,
    ⟨[(make_hash_key buf1 mask, [a, b, c])], [b, a]⟩,
    ⟨[(make_hash_key buf1 mask, [a, b, c])], [c, b, a]⟩, ?_, ?_, ?_, ?_⟩
  · simp [Hash_slave_rows.init, Hash_slave_rows.put, Hash_slave_rows.get,
      e2, e3, putChains, chainOf]
  · simp [Hash_slave_rows.next, chainContaining, nextInChain,
      hab, hac, hbc, Ne.symm hab, Ne.symm hac, Ne.symm hbc]
  · simp [Hash_slave_rows.next, chainContaining, nextInChain,
      hab, hac, hbc, Ne.symm hab, Ne.symm hac, Ne.symm hbc]
  · simp [Hash_slave_rows.next, chainContaining, nextInChain,
      hab, hac, hbc, Ne.symm hab, Ne.symm hac, Ne.symm hbc]

/-- C5 witness: entries 1, 2, 3 under a one-column mask. -/
theorem hash_roundtrip_three_witness :
    ∃ s4 s5 s6 s7 : Hash_slave_rows,
      (((Hash_slave_rows.init.put [[0]] [true] 1).put [[0]] [true] 2).put
          [[0]] [true] 3).get [[0]] [true] = (some 1, s4) ∧
      s4.next 1 = (NextResult.found 2, s5) ∧
      s5.next 2 = (NextResult.found 3, s6) ∧
      s6.next 3 = (NextResult.notFound, s7) :=
  hash_roundtrip_three 1 2 3 (by decide) (by decide) (by decide)
    [[0]] [[0]] [[0]] [true] rfl rfl

/-- `chainOf` skips a prefix of chains whose keys differ from `k`. -/
theorem chainOf_append (pre post : List (Nat × List Nat)) (k : Nat)
    (es : List Nat) (hk : ∀ p ∈ pre, p.1 ≠ k) :
    chainOf (pre ++ (k, es) :: post) k = es := by
  induction pre with
  | nil => simp [chainOf]
  | cons p rest ih =>
    obtain ⟨k', es'⟩ := p
    have h1 : k' ≠ k := hk (k', es') (by simp)
    simp only [List.cons_append, chainOf, h1, if_false]
    exact ih (fun q hq => hk q (by simp [hq]))

/-- `delFromChains` skips a prefix of chains not containing the entry and
erases it from the first chain that does. -/
theorem delFromChains_append (pre post : List (Nat × List Nat)) (k e : Nat)
    (es : List Nat) (he : ∀ p ∈ pre, e ∉ p.2) (hmem : e ∈ es) :
    delFromChains (pre ++ (k, es) :: post) e =
      pre ++ (k, es.erase e) :: post := by
  induction pre with
  | nil => simp [delFromChains, hmem]
  | cons p rest ih =>
    obtain ⟨k', es'⟩ := p
    have h1 : e ∉ es' := he (k', es') (by simp)
    simp only [List.cons_append, delFromChains, h1, if_false, List.append_eq]
    rw [ih (fun q hq => he q (by simp [hq]))]

/-- Deleting, in chain order, every entry of the chain stored under `k`
empties that chain and touches nothing else (provided no earlier chain
holds any of those entries). -/
theorem delAll_chain (es : List Nat) :
    ∀ (pre post : List (Nat × List Nat)) (k : Nat) (cns : List Nat),
      (∀ e ∈ es, ∀ p ∈ pre, e ∉ p.2) →
      delAll ⟨pre ++ (k, es) :: post, cns⟩ es =
        ⟨pre ++ (k, ([] : List Nat)) :: post, cns⟩ := by
  induction es with
  | nil =>
    intro pre post k cns h
    rfl
  | cons e es' ih =>
    intro pre post k cns h
    have hd : Hash_slave_rows.del ⟨pre ++ (k, e :: es') :: post, cns⟩ e =
        ⟨pre ++ (k, es') :: post, cns⟩ := by
      simp only [Hash_slave_rows.del]
      rw [delFromChains_append pre post k e (e :: es')
        (fun p hp => h e (by simp) p hp) (by simp)]
      simp
    show delAll ⟨pre ++ (k, e :: es') :: post, cns⟩ (e :: es') = _
    unfold delAll
    rw [List.foldl_cons, hd]
    exact ih pre post k cns (fun x hx p hp => h x (by simp [hx]) p hp)

/-- C6: after `del` on every entry stored under a key, a `get` for that
key reports not-found, and `size` has decreased by exactly the number of
entries deleted. -/
theorem hash_del_all (pre post : List (Nat × List Nat)) (k : Nat)
    (es : List Nat) (cns : List Nat) (buf : List (List Nat))
    (mask : List Bool) (hkey : make_hash_key buf mask = k)
    (hk : ∀ p ∈ pre, p.1 ≠ k)
    (hm : ∀ e ∈ es, ∀ p ∈ pre, e ∉ p.2) :
    ((delAll ⟨pre ++ (k, es) :: post, cns⟩ es).get buf mask).1 = none ∧
    (delAll ⟨pre ++ (k, es) :: post, cns⟩ es).size + es.length =
      (⟨pre ++ (k, es) :: post, cns⟩ : Hash_slave_rows).size := by
  rw [delAll_chain es pre post k cns hm]
  constructor
  · simp [Hash_slave_rows.get, hkey, chainOf_append pre post k [] hk]
  · simp [Hash_slave_rows.size]
    omega

/-- C6 witness: two entries under one key, both deleted. -/
theorem hash_del_all_witness :
    ((delAll ⟨[(make_hash_key [[1]] [true], [5, 6])], []⟩ [5, 6]).get
        [[1]] [true]).1 = none ∧
    (delAll ⟨[(make_hash_key [[1]] [true], [5, 6])], []⟩ [5, 6]).size + 2 =
      (⟨[(make_hash_key [[1]] [true], [5, 6])], []⟩ : Hash_slave_rows).size :=
  hash_del_all [] [] (make_hash_key [[1]] [true]) [5, 6] [] [[1]] [true] rfl
    (by simp) (by simp)

/-- When the decoded sequence is an initial segment of the live one, every
paired column is identical, so the pairing walk yields only no-conversion
entries. -/
theorem pair_conversions_prefix_right (pol : ConvPolicy) (l : List Nat) :
    ∀ (t : List Nat) (i : Nat),
      pair_conversions pol l (l ++ t) i =
        Except.ok (List.replicate l.length (none : Option (Nat × Nat))) := by
  induction l with
  | nil =>
    intro t i
    cases t with
    | nil => rfl
    | cons x xs => rfl
  | cons a as ih =>
    intro t i
    simp [pair_conversions, ih t (i + 1), List.replicate]

/-- Symmetrically, when the live sequence is an initial segment of the
decoded one, the pairing walk yields only no-conversion entries. -/
theorem pair_conversions_prefix_left (pol : ConvPolicy) (l : List Nat) :
    ∀ (t : List Nat) (i : Nat),
      pair_conversions pol (l ++ t) l i =
        Except.ok (List.replicate l.length (none : Option (Nat × Nat))) := by
  induction l with
  | nil =>
    intro t i
    cases t with
    | nil => rfl
    | cons x xs => rfl
  | cons a as ih =>
    intro t i
    simp [pair_conversions, ih t (i + 1), List.replicate]

/-- C7: whenever one side's column sequence is a (not necessarily proper)
initial segment of the other's — in either direction — all paired columns
are identical and `compatible_with` reports Compatible (no conversion),
regardless of the conversion policy. -/
theorem compatible_with_initial_segment (pol : ConvPolicy) (decoded live : List Nat)
    (h : (∃ t, live = decoded ++ t) ∨ (∃ t, decoded = live ++ t)) :
    compatible_with pol decoded live = CompatResult.Compatible := by
  rcases h with ⟨t, rfl⟩ | ⟨t, rfl⟩
  · simp [compatible_with, pair_conversions_prefix_right pol decoded t 0,
      List.all_eq_true, List.mem_replicate]
  · simp [compatible_with, pair_conversions_prefix_left pol live t 0,
      List.all_eq_true, List.mem_replicate]

/-- C7 witness: `[INT, VARCHAR]` against `[INT, VARCHAR, BLOB]` under the
strict policy, and the roles swapped under the permissive policy. -/
theorem compatible_with_initial_segment_witness :
    compatible_with ConvPolicy.strict [MYSQL_TYPE_LONG, MYSQL_TYPE_VARCHAR]
        [MYSQL_TYPE_LONG, MYSQL_TYPE_VARCHAR, MYSQL_TYPE_BLOB] =
      CompatResult.Compatible ∧
    compatible_with ConvPolicy.permissive
        [MYSQL_TYPE_LONG, MYSQL_TYPE_VARCHAR, MYSQL_TYPE_BLOB]
        [MYSQL_TYPE_LONG, MYSQL_TYPE_VARCHAR] = CompatResult.Compatible :=
  ⟨compatible_with_initial_segment ConvPolicy.strict _ _
      (Or.inl ⟨[MYSQL_TYPE_BLOB], rfl⟩),
   compatible_with_initial_segment ConvPolicy.permissive _ _
      (Or.inr ⟨[MYSQL_TYPE_BLOB], rfl⟩)⟩
